import Mathlib

/-!
Verification of `generate-logo-data.py`, the logo-data generation script of
the MicrosoftCloudLogos repository.  The script walks a directory tree,
derives structured metadata from each logo file path, enriches the result
with git-history data, and serializes everything into one artifact.

The embedding below models the script's pure string processing directly:
regular-expression steps become explicit functions on `List Char`,
filesystem paths become lists of path segments, and the git subprocess and
working tree become explicit inputs (stdout lines, an existence predicate).
-/

namespace LogoGen

/-- File extensions included in the scan (`LOGO_EXTENSIONS` in the script). -/
def LOGO_EXTENSIONS : List String := [".png", ".svg", ".jpg", ".jpeg", ".ico", ".pdf"]

/-- Folders excluded from scanning (`EXCLUDE_FOLDERS` in the script). -/
def EXCLUDE_FOLDERS : List String := ["docs", ".git", "node_modules", ".github"]

/-- ASCII lowering of a character list, modelling Python `str.lower()`. -/
def lowerChars (l : List Char) : List Char := l.map Char.toLower

/-- ASCII lowering of a string, modelling Python `str.lower()`. -/
def lowerStr (s : String) : String := String.mk (lowerChars s.data)

/-- Whitespace characters recognised by Python's `\s` and `str.strip()`. -/
def isSpaceChar (c : Char) : Bool :=
  c == ' ' || c == '\t' || c == '\n' || c == '\r' || c == '\x0b' || c == '\x0c'

/-- `startsWithChars pre l` is true when `pre` is a leading segment of `l`. -/
def startsWithChars : List Char → List Char → Bool
  | [], _ => true
  | _ :: _, [] => false
  | p :: ps, c :: cs => p == c && startsWithChars ps cs

/-- `containsChars needle hay` models the Python substring test `needle in hay`. -/
def containsChars : List Char → List Char → Bool
  | needle, [] => needle.isEmpty
  | needle, c :: cs => startsWithChars needle (c :: cs) || containsChars needle cs

/-- Python `str.strip()` on a character list. -/
def pyStrip (l : List Char) : List Char :=
  ((l.dropWhile isSpaceChar).reverse.dropWhile isSpaceChar).reverse

/-- Python `str.strip()`. -/
def pyStripStr (s : String) : String := String.mk (pyStrip s.data)

/-- Split a character list at every occurrence of the separator, keeping
empty pieces — Python `str.split(sep)` for a one-character separator. -/
def splitOnChar (sep : Char) : List Char → List (List Char)
  | [] => [[]]
  | c :: cs =>
    match splitOnChar sep cs with
    | [] => [[]]
    | w :: ws => if c == sep then [] :: w :: ws else (c :: w) :: ws

/-- Join pieces with a one-character separator — Python `sep.join(ws)`. -/
def joinWithChar (sep : Char) : List (List Char) → List Char
  | [] => []
  | [w] => w
  | w :: ws => w ++ sep :: joinWithChar sep ws

/-- Python `s.split(sep)` for a one-character separator. -/
def splitStr (sep : Char) (s : String) : List String :=
  (splitOnChar sep s.data).map String.mk

/-- Python `sep.join(ws)` for a one-character separator. -/
def joinStr (sep : Char) (ws : List String) : String :=
  String.mk (joinWithChar sep (ws.map String.data))

/-- Python `PurePath(name).suffix`: the extension (with dot) of a final path
component — the part after the last `'.'`, provided that dot is neither the
first nor the last character. -/
def pathSuffix (name : String) : String :=
  match List.span (fun c => !(c == '.')) name.data.reverse with
  | (extRev, '.' :: _ :: _) =>
      if extRev.isEmpty then "" else String.mk ('.' :: extRev.reverse)
  | _ => ""

/-- Python `PurePath(name).stem`: the final component without its suffix. -/
def pathStem (name : String) : String :=
  let suf := pathSuffix name
  if suf.isEmpty then name
  else String.mk (name.data.take (name.data.length - suf.data.length))

/-- `get_file_format`: uppercased extension without the leading dot. -/
def get_file_format (filename : String) : String :=
  let ext := (pathSuffix filename).data.map Char.toUpper
  if ext.isEmpty then "" else String.mk (ext.drop 1)

/-- `re.sub(r'[-_]\d+x\d+$', '', s)`: strip one trailing size specification
such as `_256x256`.  Matching is done from the right end: a run of digits, an
`'x'`, a run of digits, then a `'-'` or `'_'`. -/
def stripSizeSuffix (s : List Char) : List Char :=
  match List.span Char.isDigit s.reverse with
  | (d₁, r₁) =>
    if d₁.isEmpty then s
    else
      match r₁ with
      | [] => s
      | c :: r₂ =>
        if c == 'x' then
          match List.span Char.isDigit r₂ with
          | (d₂, r₃) =>
            if d₂.isEmpty then s
            else
              match r₃ with
              | [] => s
              | c₂ :: r₄ => if c₂ == '-' || c₂ == '_' then r₄.reverse else s
        else s

/-- `re.sub(r'^\d+-icon-service-', '', s)`: strip a leading Azure icon
prefix of digits followed by the literal `-icon-service-`. -/
def stripIconService (s : List Char) : List Char :=
  match List.span Char.isDigit s with
  | ([], _) => s
  | (_ :: _, rest) =>
      if startsWithChars "-icon-service-".data rest then rest.drop 14 else s

/-- `re.sub(r'^[0-9\-]+', '', s)`: strip the leading run of digits and dashes. -/
def stripLeadingNumbers (s : List Char) : List Char :=
  s.dropWhile (fun c => c.isDigit || c == '-')

/-- `re.sub(r'[-_]scalable$', '', s, flags=re.IGNORECASE)`: strip one
trailing `-scalable`/`_scalable` (case-insensitively). -/
def stripScalable (s : List Char) : List Char :=
  match s.drop (s.length - 9) with
  | c :: rest =>
      if (c == '-' || c == '_') && lowerChars rest == "scalable".data then
        s.take (s.length - 9)
      else s
  | [] => s

/-- `re.sub(r'\s+', ' ', s)`: collapse each whitespace run to one space.
The flag records whether the previous character was whitespace. -/
def squeeze : Bool → List Char → List Char
  | _, [] => []
  | prev, c :: cs =>
    if isSpaceChar c then
      (if prev then squeeze true cs else ' ' :: squeeze true cs)
    else c :: squeeze false cs

/-- Words the capitalization step preserves verbatim. -/
def KEEP_WORDS : List String := ["365", "and", "or", "the", "of", "for"]

/-- Python `str.capitalize()`: first character uppercased, rest lowercased. -/
def capitalizeWord (w : String) : String :=
  match w.data with
  | [] => ""
  | c :: cs => String.mk (c.toUpper :: cs.map Char.toLower)

/-- One word of the final capitalization pass of the name cleanup. -/
def fixWord (w : String) : String :=
  if lowerStr w ∈ KEEP_WORDS then w else capitalizeWord w

/-- The name-normalization chain of `parse_logo_path` (lines 49-60 of the
script), applied to the filename stem. -/
def clean_name (stem : String) : String :=
  let s1 := stripSizeSuffix stem.data
  let s2 := stripIconService s1
  let s3 := stripLeadingNumbers s2
  let s4 := stripScalable s3
  let s5 := s4.map (fun c => if c == '_' || c == '-' then ' ' else c)
  let s6 := pyStrip (squeeze false s5)
  joinStr ' ' ((splitStr ' ' (String.mk s6)).map fixWord)

/-- Style determination from the lower-cased relative path string
(lines 62-74 of the script). -/
def styleOf (pathLower : List Char) : String :=
  if containsChars "monochrome-negative".data pathLower
      || containsChars "monochromatic-negative".data pathLower then "monochrome-negative"
  else if containsChars "monochrome-positive".data pathLower
      || containsChars "monochromatic-positive".data pathLower then "monochrome-positive"
  else if containsChars "monochrome".data pathLower
      || containsChars "monochromatic".data pathLower then "monochrome"
  else if containsChars "negative".data pathLower then "negative"
  else if containsChars "positive".data pathLower then "positive"
  else "full-color"

/-- Word characters for the regex word boundary `\b` (ASCII `\w`). -/
def isWordChar (c : Char) : Bool := c.isAlphanum || c == '_'

/-- Match of `(19|20)\d{2}[-–]\d{4}` at the head of `l`, including the
trailing word boundary check. -/
def yearRangeAt (l : List Char) : Bool :=
  match l with
  | a :: b :: c :: d :: e :: f :: g :: h :: i :: rest =>
    ((a == '1' && b == '9') || (a == '2' && b == '0')) && c.isDigit && d.isDigit &&
      (e == '-' || e == '–') && f.isDigit && g.isDigit && h.isDigit && i.isDigit &&
      (match rest with | [] => true | r :: _ => !isWordChar r)
  | _ => false

/-- Scan for `\b(19|20)\d{2}[-–]\d{4}\b`; the flag records whether the
previous character was a word character (for the leading boundary). -/
def hasYearRangeAux : Bool → List Char → Bool
  | _, [] => false
  | prevWord, c :: cs => (!prevWord && yearRangeAt (c :: cs)) || hasYearRangeAux (isWordChar c) cs

/-- `re.search(r'\b(19|20)\d{2}[-–]\d{4}\b', pathLower)` as a Boolean. -/
def hasYearRange (l : List Char) : Bool := hasYearRangeAux false l

/-- Year/era determination (lines 76-84 of the script).  Note the
`zzLEGACY` test runs on the original path string, the others on the
lower-cased one. -/
def yearOf (relStr : String) (pathLower : List Char) : String :=
  if containsChars "zzLEGACY".data relStr.data || containsChars "legacy".data pathLower then
    "legacy"
  else if hasYearRange pathLower then "legacy"
  else "current"

/-- Match of `\d+x\d+` starting exactly at the head of `l` (greedy digit
runs, as the regex engine resolves them). -/
def sizeMatchAt (l : List Char) : Option (List Char) :=
  match List.span Char.isDigit l with
  | ([], _) => none
  | (d₁, 'x' :: r₂) =>
    (match List.span Char.isDigit r₂ with
     | ([], _) => none
     | (d₂, _) => some (d₁ ++ 'x' :: d₂))
  | _ => none

/-- `re.search(r'(\d+x\d+)', l)`: leftmost match. -/
def sizeSearch : List Char → Option (List Char)
  | [] => none
  | c :: cs =>
    match sizeMatchAt (c :: cs) with
    | some m => some m
    | none => sizeSearch cs

/-- Size extraction from the filename (lines 86-90 of the script). -/
def sizeField (filename : String) : String :=
  match sizeSearch filename.data with
  | some m => String.mk m
  | none => ""

/-- The record produced by `parse_logo_path` (without the `id` key, which
`scan_logos` adds afterwards). -/
structure ParsedLogo where
  name : String
  family : String
  filename : String
  path : String
  style : String
  year : String
  size : String
  format : String
  deriving DecidableEq

/-- `parse_logo_path`, over the repo-relative path split into segments.
Empty `parts` cannot arise for a scanned file (the Python code would raise
`IndexError` at `parts[-1]`); the embedding returns `none` there. -/
def parse_logo_path (parts : List String) : Option ParsedLogo :=
  if EXCLUDE_FOLDERS.any (fun e => decide (e ∈ parts)) then none
  else
    match parts.getLast? with
    | none => none
    | some filename =>
      let family := parts.headD "Other"
      let relStr := joinStr '/' parts
      let pathLower := lowerChars relStr.data
      some {
        name := clean_name (pathStem filename)
        family := family
        filename := filename
        path := String.mk (relStr.data.map (fun c => if c == '\\' then '/' else c))
        style := styleOf pathLower
        year := yearOf relStr pathLower
        size := sizeField filename
        format := get_file_format filename }

/-- A logo record as emitted by `scan_logos`: the parsed fields plus the
`id` assigned in traversal order. -/
structure LogoRecord extends ParsedLogo where
  id : Nat
  deriving DecidableEq

/-- The loop body of `scan_logos`: walk the candidate files (each given as
its repo-relative segment list, in traversal order), keep those whose
extension is in `LOGO_EXTENSIONS` and which parse to a record, and assign
consecutive ids starting from the counter `n`. -/
def scanLoop : List (List String) → Nat → List LogoRecord
  | [], _ => []
  | parts :: rest, n =>
    if lowerStr (pathSuffix (parts.getLastD "")) ∈ LOGO_EXTENSIONS then
      match parse_logo_path parts with
      | some info => { toParsedLogo := info, id := n } :: scanLoop rest (n + 1)
      | none => scanLoop rest n
    else scanLoop rest n

/-- `scan_logos`: scan the traversal output for logo files, ids from 0. -/
def scan_logos (files : List (List String)) : List LogoRecord :=
  scanLoop files 0

/-- The sort key of the serializer: `(family, name, path)`, compared
lexicographically (case-sensitive string comparison per component). -/
def keyP (p : ParsedLogo) : Lex (String × Lex (String × String)) :=
  toLex (p.family, toLex (p.name, p.path))

/-- Ordering of logo records used by `sorted(logos, key=...)`. -/
abbrev keyLE (a b : LogoRecord) : Prop := keyP a.toParsedLogo ≤ keyP b.toParsedLogo

/-- Non-strict key comparison on parsed records. -/
abbrev keyPLE (a b : ParsedLogo) : Prop := keyP a ≤ keyP b

/-- Strict key comparison on parsed records. -/
abbrev keyPLT (a b : ParsedLogo) : Prop := keyP a < keyP b

instance : IsTotal LogoRecord keyLE := ⟨fun a b => le_total (keyP a.toParsedLogo) (keyP b.toParsedLogo)⟩

instance : IsTrans LogoRecord keyLE := ⟨fun _ _ _ h₁ h₂ => le_trans h₁ h₂⟩

instance : IsTotal ParsedLogo keyPLE := ⟨fun a b => le_total (keyP a) (keyP b)⟩

instance : IsTrans ParsedLogo keyPLE := ⟨fun _ _ _ h₁ h₂ => le_trans h₁ h₂⟩

instance : IsAntisymm ParsedLogo keyPLT :=
  ⟨fun _ _ h₁ h₂ => absurd h₂ (lt_asymm h₁)⟩

/-- The `logos_sorted` list of `generate_logo_data_js`:
`sorted(logos, key=lambda x: (x['family'], x['name'], x['path']))`. -/
def logos_sorted (logos : List LogoRecord) : List LogoRecord :=
  List.insertionSort keyLE logos

/-- One entry of the recent-additions list. -/
structure RecentEntry where
  path : String
  date : String
  author : String
  sha : String
  deriving DecidableEq

/-- The commit-info line state of the `get_recent_additions` loop. -/
structure CommitInfo where
  sha : String
  date : String
  author : String
  email : String
  deriving DecidableEq

/-- Final path component, as used by `Path(file_path).suffix` and parts. -/
def lastSegment (p : String) : String := (splitStr '/' p).getLastD ""

/-- The line-processing loop of `get_recent_additions` (lines 159-187 of
the script): commit-header lines update the current commit; `A<tab>` lines
name an added file, kept when its extension is allowed, no excluded folder
occurs among its segments, and it still exists in the working tree (`ex`). -/
def collectAdded : List String → Option CommitInfo → (String → Bool) → List RecentEntry
  | [], _, _ => []
  | line :: rest, current, ex =>
    let l := pyStripStr line
    if l.data.contains '|' ∧ (splitStr '|' l).length = 4 then
      match splitStr '|' l with
      | [sha, date, author, email] =>
          collectAdded rest (some { sha := sha, date := date, author := author, email := email }) ex
      | _ => collectAdded rest current ex
    else
      match current with
      | some c =>
        if startsWithChars "A\t".data l.data then
          let fp := pyStripStr (String.mk (l.data.drop 2))
          if lowerStr (pathSuffix (lastSegment fp)) ∈ LOGO_EXTENSIONS
              ∧ ¬ ((splitStr '/' fp).any (fun p => decide (p ∈ EXCLUDE_FOLDERS)) = true)
              ∧ ex fp = true then
            { path := fp, date := c.date, author := c.author, sha := c.sha } :: collectAdded rest current ex
          else collectAdded rest current ex
        else collectAdded rest current ex
      | none => collectAdded rest current ex

/-- Descending order on the `date` string, as used by
`recent_files.sort(key=lambda x: x['date'], reverse=True)`. -/
abbrev dateGE (a b : RecentEntry) : Prop := b.date ≤ a.date

instance : IsTotal RecentEntry dateGE := ⟨fun a b => le_total b.date a.date⟩

instance : IsTrans RecentEntry dateGE := ⟨fun _ _ _ h₁ h₂ => le_trans h₂ h₁⟩

/-- `get_recent_additions` over the stdout lines of the successful git
subprocess and the working-tree existence predicate `ex`: collect added
files, sort newest first by date, truncate to `limit`. -/
def get_recent_additions (lines : List String) (ex : String → Bool) (limit : Nat) : List RecentEntry :=
  (List.insertionSort dateGE (collectAdded lines none ex)).take limit

/-- Outcome of the blocking git subprocess call: an exception, or a
completed run with an exit status and captured stdout. -/
inductive GitRun where
  | failed : GitRun
  | completed (returncode : Int) (stdout : String) : GitRun
  deriving DecidableEq

/-- `get_recent_additions` including its failure handling (lines 150-197):
a raised exception or a non-zero exit status yields the empty list plus a
printed warning (the Boolean component). -/
def get_recent_additions_run (git : GitRun) (ex : String → Bool) (limit : Nat) :
    List RecentEntry × Bool :=
  match git with
  | .failed => ([], true)
  | .completed rc out =>
    if rc ≠ 0 then ([], true)
    else (get_recent_additions (splitStr '\n' out) ex limit, false)

/-- One contributor entry of the fallback git-log method. -/
structure Contributor where
  name : String
  github_username : Option String
  deriving DecidableEq

/-- State of the contributor dedup loop: the two insertion-ordered lookup
tables and the set of lower-cased names seen with a GitHub username. -/
structure ContribState where
  byUser : List (String × Contributor)
  byName : List (String × Contributor)
  namesWith : List String
  deriving DecidableEq

/-- One step of the `get_contributors_from_git` loop (lines 284-323). -/
def contribStep (st : ContribState) (line : String) : ContribState :=
  let l := pyStripStr line
  if l.data.contains '|' then
    match splitStr '|' l with
    | name :: email :: _ =>
      if containsChars "bot".data (lowerChars email.data)
          || containsChars "bot".data (lowerChars name.data) then st
      else
        let ghUser : Option String :=
          if containsChars "users.noreply.github.com".data email.data then
            let emailLocal := (splitStr '@' email).headD ""
            if emailLocal.data.contains '+' then some ((splitStr '+' emailLocal).getD 1 "")
            else some emailLocal
          else none
        let nameKey := lowerStr name
        match ghUser with
        | some u =>
          { byUser :=
              if (st.byUser.lookup u).isSome then st.byUser
              else st.byUser ++ [(u, { name := name, github_username := some u })]
            byName := st.byName
            namesWith :=
              if nameKey ∈ st.namesWith then st.namesWith else st.namesWith ++ [nameKey] }
        | none =>
          if nameKey ∈ st.namesWith ∨ (st.byName.lookup nameKey).isSome then st
          else
            { byUser := st.byUser
              byName := st.byName ++ [(nameKey, { name := name, github_username := none })]
              namesWith := st.namesWith }
    | _ => st
  else st

/-- `get_contributors_from_git` over the stdout lines of
`git log --all --pretty=format:%an|%ae`: run the dedup loop, then emit the
username-keyed entries followed by the name-keyed ones. -/
def get_contributors_from_git (lines : List String) : List Contributor :=
  let st := lines.foldl contribStep { byUser := [], byName := [], namesWith := [] }
  st.byUser.map Prod.snd ++ st.byName.map Prod.snd

/-- The generated artifact: the three data blocks written to
`logo-data.js` by `generate_logo_data_js`. -/
structure Artifact where
  logos : List LogoRecord
  recent : List RecentEntry
  contributors : List Contributor
  deriving DecidableEq

/-- The orchestration of `main`: scan, query history (limit 50), take the
contributor list, and serialize.  The artifact is produced unconditionally;
history failure merely empties the recent-additions block. -/
def run_generation (files : List (List String)) (git : GitRun) (ex : String → Bool)
    (contribs : List Contributor) : Artifact :=
  { logos := logos_sorted (scan_logos files)
    recent := (get_recent_additions_run git ex 50).1
    contributors := contribs }

/-! ## Theorems about the claims -/

/-- C4: for the path `Azure/AI/256x256/02681-icon-service-Cognitive-Search.svg`,
the scanner finds the file and the parser yields family "Azure",
name "Cognitive Search", format "SVG", empty size (the WxH token sits in a
directory, not the filename), style "full-color" and year "current". -/
theorem end_to_end_azure_search :
    parse_logo_path ["Azure", "AI", "256x256", "02681-icon-service-Cognitive-Search.svg"] =
      some { name := "Cognitive Search", family := "Azure",
             filename := "02681-icon-service-Cognitive-Search.svg",
             path := "Azure/AI/256x256/02681-icon-service-Cognitive-Search.svg",
             style := "full-color", year := "current", size := "", format := "SVG" } ∧
    scan_logos [["Azure", "AI", "256x256", "02681-icon-service-Cognitive-Search.svg"]] =
      [{ name := "Cognitive Search", family := "Azure",
         filename := "02681-icon-service-Cognitive-Search.svg",
         path := "Azure/AI/256x256/02681-icon-service-Cognitive-Search.svg",
         style := "full-color", year := "current", size := "", format := "SVG", id := 0 }] :=
  ⟨by decide, by decide⟩

/-- C1 counterexample: the path `Azure/monochrome/negative/x.png` contains
both a "monochrome" and a "negative" token in its lower-cased string, yet
`parse_logo_path` assigns the plain style "monochrome", not
"monochrome-negative": the first branch only fires on the contiguous
substrings "monochrome-negative"/"monochromatic-negative". -/
theorem style_separate_tokens_cex :
    containsChars "monochrome".data
        (lowerChars (joinStr '/' ["Azure", "monochrome", "negative", "x.png"]).data) = true ∧
    containsChars "negative".data
        (lowerChars (joinStr '/' ["Azure", "monochrome", "negative", "x.png"]).data) = true ∧
    (parse_logo_path ["Azure", "monochrome", "negative", "x.png"]).map ParsedLogo.style =
      some "monochrome" :=
  ⟨by decide, by decide, by decide⟩

/-- C3 counterexample: for the single-segment path `logo.png` (a path with
no parent directory) the parser sets `family` to the filename itself, not
to the fallback label "Other": the fallback only applies to an empty
segment list, which no file path produces. -/
theorem family_single_segment_cex :
    (parse_logo_path ["logo.png"]).map ParsedLogo.family = some "logo.png" ∧
    ("logo.png" : String) ≠ "Other" :=
  ⟨by decide, by decide⟩

/-- C8: the fallback contributor dedup is order-dependent, contradicting
its stated intent ("prefer entries with GitHub usernames").  When the
plain-name author line precedes the noreply-email line, the final list
keeps a duplicate unresolved entry for the same display name; in the
opposite order the duplicate is correctly suppressed. -/
theorem contributors_duplicate_on_reordered_log :
    get_contributors_from_git
        ["Alice|alice@example.com", "Alice|12345+alicegh@users.noreply.github.com"] =
      [{ name := "Alice", github_username := some "alicegh" },
       { name := "Alice", github_username := none }] ∧
    get_contributors_from_git
        ["Alice|12345+alicegh@users.noreply.github.com", "Alice|alice@example.com"] =
      [{ name := "Alice", github_username := some "alicegh" }] :=
  ⟨by decide, by decide⟩

/-- The exclusion test of `parse_logo_path` is equivalent to some path
segment lying in the exclusion set. -/
lemma excluded_any_iff (parts : List String) :
    EXCLUDE_FOLDERS.any (fun e => decide (e ∈ parts)) = true ↔
      ∃ p ∈ parts, p ∈ EXCLUDE_FOLDERS := by
  rw [List.any_eq_true]
  constructor
  · rintro ⟨e, he, hp⟩
    exact ⟨e, of_decide_eq_true hp, he⟩
  · rintro ⟨p, hp, he⟩
    exact ⟨p, he, decide_eq_true hp⟩

/-- C2: for a (nonempty) file path, `parse_logo_path` yields no record
exactly when some path segment is an excluded directory name; in all other
cases it yields a record (and the embedding is a total function). -/
theorem parse_none_iff_excluded (parts : List String) (h : parts ≠ []) :
    parse_logo_path parts = none ↔ ∃ p ∈ parts, p ∈ EXCLUDE_FOLDERS := by
  rcases Option.isSome_iff_exists.mp (List.getLast?_isSome.mpr h) with ⟨f, hf⟩
  by_cases hex : EXCLUDE_FOLDERS.any (fun e => decide (e ∈ parts)) = true
  · have hp : parse_logo_path parts = none := by
      unfold parse_logo_path
      rw [if_pos hex]
    rw [hp]
    exact iff_of_true rfl ((excluded_any_iff parts).mp hex)
  · have hp : parse_logo_path parts ≠ none := by
      unfold parse_logo_path
      rw [if_neg hex, hf]
      exact fun hc => Option.noConfusion hc
    exact iff_of_false hp (fun hc => hex ((excluded_any_iff parts).mpr hc))

/-- C2 witness: `docs/x.png` is rejected (its first segment is excluded),
as an instance of the equivalence. -/
theorem parse_none_iff_excluded_witness :
    parse_logo_path ["docs", "x.png"] = none ↔
      ∃ p ∈ (["docs", "x.png"] : List String), p ∈ EXCLUDE_FOLDERS :=
  parse_none_iff_excluded ["docs", "x.png"] (by decide)

/-- C3 (amended): for every nonempty, non-excluded path the `family` field
is the first path segment (`parts[0]`); the "Other" fallback would apply
only to an empty segment list, which no file path produces. -/
theorem family_is_first_segment (parts : List String) (h : parts ≠ [])
    (hex : EXCLUDE_FOLDERS.any (fun e => decide (e ∈ parts)) = false) :
    (parse_logo_path parts).map ParsedLogo.family = some (parts.headD "Other") := by
  rcases Option.isSome_iff_exists.mp (List.getLast?_isSome.mpr h) with ⟨f, hf⟩
  have hex' : ¬ EXCLUDE_FOLDERS.any (fun e => decide (e ∈ parts)) = true := by
    simp [hex]
  unfold parse_logo_path
  rw [if_neg hex', hf]
  rfl

/-- C3 witness: the family of `Azure/AI/x.svg` is its first segment. -/
theorem family_is_first_segment_witness :
    (parse_logo_path ["Azure", "AI", "x.svg"]).map ParsedLogo.family =
      some ((["Azure", "AI", "x.svg"] : List String).headD "Other") :=
  family_is_first_segment ["Azure", "AI", "x.svg"] (by decide) (by decide)

/-- The style branch chain under a "monochrome" substring: the combined
monochrome-negative tokens force "monochrome-negative", and the result can
never be plain "negative" or the "full-color" default. -/
lemma styleOf_of_monochrome (pl : List Char)
    (hm : containsChars "monochrome".data pl = true) :
    (containsChars "monochrome-negative".data pl = true → styleOf pl = "monochrome-negative") ∧
    styleOf pl ≠ "negative" ∧ styleOf pl ≠ "full-color" := by
  unfold styleOf
  by_cases h₁ : (containsChars "monochrome-negative".data pl
      || containsChars "monochromatic-negative".data pl) = true
  · rw [if_pos h₁]
    exact ⟨fun _ => rfl, by decide, by decide⟩
  · rw [if_neg h₁]
    have hmn' : ¬ containsChars "monochrome-negative".data pl = true := by
      rcases Bool.or_eq_false_iff.mp (Bool.eq_false_iff.mpr h₁) with ⟨ha, _⟩
      simp [ha]
    by_cases h₂ : (containsChars "monochrome-positive".data pl
        || containsChars "monochromatic-positive".data pl) = true
    · rw [if_pos h₂]
      exact ⟨fun hc => absurd hc hmn', by decide, by decide⟩
    · have h₃ : (containsChars "monochrome".data pl
          || containsChars "monochromatic".data pl) = true := by rw [hm, Bool.true_or]
      rw [if_neg h₂, if_pos h₃]
      exact ⟨fun hc => absurd hc hmn', by decide, by decide⟩

/-- C1 (amended): when the lower-cased path string contains both a
"monochrome" and a "negative" substring, the style resolves to
"monochrome-negative" when the contiguous combined token
"monochrome-negative" occurs; when the two tokens occur only separately the
earlier monochrome branches win, so the style is never plain "negative"
(and never the "full-color" default). -/
theorem style_monochrome_negative (parts : List String) (h : parts ≠ [])
    (hex : EXCLUDE_FOLDERS.any (fun e => decide (e ∈ parts)) = false)
    (hm : containsChars "monochrome".data (lowerChars (joinStr '/' parts).data) = true)
    (hn : containsChars "negative".data (lowerChars (joinStr '/' parts).data) = true) :
    (containsChars "monochrome-negative".data (lowerChars (joinStr '/' parts).data) = true →
      (parse_logo_path parts).map ParsedLogo.style = some "monochrome-negative") ∧
    (parse_logo_path parts).map ParsedLogo.style ≠ some "negative" ∧
    (parse_logo_path parts).map ParsedLogo.style ≠ some "full-color" := by
  rcases Option.isSome_iff_exists.mp (List.getLast?_isSome.mpr h) with ⟨f, hf⟩
  have hex' : ¬ EXCLUDE_FOLDERS.any (fun e => decide (e ∈ parts)) = true := by
    simp [hex]
  have hstyle : (parse_logo_path parts).map ParsedLogo.style =
      some (styleOf (lowerChars (joinStr '/' parts).data)) := by
    unfold parse_logo_path
    rw [if_neg hex', hf]
    rfl
  rw [hstyle]
  obtain ⟨h₁, h₂, h₃⟩ := styleOf_of_monochrome (lowerChars (joinStr '/' parts).data) hm
  refine ⟨fun hc => by rw [h₁ hc], fun hc => h₂ (Option.some.inj hc), fun hc => h₃ (Option.some.inj hc)⟩

/-- C1 witness: `Azure/Monochrome-Negative/x.png` resolves to the style
"monochrome-negative" by the amended precedence statement. -/
theorem style_monochrome_negative_witness :
    (containsChars "monochrome-negative".data
        (lowerChars (joinStr '/' ["Azure", "Monochrome-Negative", "x.png"]).data) = true →
      (parse_logo_path ["Azure", "Monochrome-Negative", "x.png"]).map ParsedLogo.style =
        some "monochrome-negative") ∧
    (parse_logo_path ["Azure", "Monochrome-Negative", "x.png"]).map ParsedLogo.style ≠
      some "negative" ∧
    (parse_logo_path ["Azure", "Monochrome-Negative", "x.png"]).map ParsedLogo.style ≠
      some "full-color" :=
  style_monochrome_negative ["Azure", "Monochrome-Negative", "x.png"]
    (by decide) (by decide) (by decide) (by decide)

/-- Every character of a matched leading segment occurs in the list. -/
lemma mem_of_startsWith : ∀ {pre l : List Char}, startsWithChars pre l = true →
    ∀ c ∈ pre, c ∈ l := by
  intro pre
  induction pre with
  | nil => intro l _ c hc; cases hc
  | cons p ps ih =>
    intro l h c hc
    cases l with
    | nil => exact absurd h (by simp [startsWithChars])
    | cons a as =>
      rw [startsWithChars, Bool.and_eq_true, beq_iff_eq] at h
      rcases List.mem_cons.mp hc with rfl | hc'
      · exact h.1 ▸ List.mem_cons_self a as
      · exact List.mem_cons_of_mem a (ih h.2 c hc')

/-- The second component of `List.span` on `l` is a sublist of `l`, so its
members are members of `l`. -/
lemma mem_of_span_snd {p : Char → Bool} {l d r : List Char}
    (hsp : List.span p l = (d, r)) {c : Char} (hc : c ∈ r) : c ∈ l := by
  have hd := List.span_eq_take_drop p l
  rw [hsp] at hd
  have hr : r = l.dropWhile p := (Prod.ext_iff.mp hd).2
  exact List.Sublist.mem (hr ▸ hc) (List.dropWhile_sublist p)

/-- A stem made only of digits and dashes has no `'x'`, so the trailing
size-specification substitution leaves it unchanged. -/
lemma stripSizeSuffix_digits {s : List Char}
    (H : ∀ c ∈ s, (c.isDigit || c == '-') = true) : stripSizeSuffix s = s := by
  rcases hsp : List.span Char.isDigit s.reverse with ⟨d₁, r₁⟩
  unfold stripSizeSuffix
  rw [hsp]
  dsimp only
  by_cases hd : d₁.isEmpty
  · rw [if_pos hd]
  · rw [if_neg hd]
    cases r₁ with
    | nil => rfl
    | cons c r₂ =>
      dsimp only
      have hcx : ¬ (c == 'x') = true := by
        intro hcx
        rw [beq_iff_eq] at hcx
        subst hcx
        have hm : 'x' ∈ s := List.mem_reverse.mp (mem_of_span_snd hsp (List.mem_cons_self _ _))
        exact absurd (H 'x' hm) (by decide)
      rw [if_neg hcx]

/-- A stem made only of digits and dashes cannot contain the literal
`-icon-service-` after its leading digits, so that substitution leaves it
unchanged as well. -/
lemma stripIconService_digits {s : List Char}
    (H : ∀ c ∈ s, (c.isDigit || c == '-') = true) : stripIconService s = s := by
  rcases hsp : List.span Char.isDigit s with ⟨d, r⟩
  unfold stripIconService
  rw [hsp]
  cases d with
  | nil => rfl
  | cons a as =>
    dsimp only
    have hsw : ¬ startsWithChars "-icon-service-".data r = true := by
      intro hsw
      have hi : 'i' ∈ r := mem_of_startsWith hsw 'i' (by decide)
      exact absurd (H 'i' (mem_of_span_snd hsp hi)) (by decide)
    rw [if_neg hsw]

/-- On a stem of digits and dashes the whole normalization chain collapses
to the empty name: the third substitution strips the entire stem. -/
lemma clean_name_digits (stem : String)
    (H : ∀ c ∈ stem.data, (c.isDigit || c == '-') = true) : clean_name stem = "" := by
  have h3 : stripLeadingNumbers stem.data = [] := by
    unfold stripLeadingNumbers
    rw [List.dropWhile_eq_nil_iff]
    exact H
  simp only [clean_name]
  rw [stripSizeSuffix_digits H, stripIconService_digits H, h3]
  rfl

/-- C10: a non-excluded file whose stem consists only of digits and dashes
still yields a record, and its `name` field is the empty string. -/
theorem parse_numeric_stem (parts : List String) (h : parts ≠ [])
    (hex : EXCLUDE_FOLDERS.any (fun e => decide (e ∈ parts)) = false)
    (hstem : ∀ c ∈ (pathStem (parts.getLastD "")).data, (c.isDigit || c == '-') = true) :
    (parse_logo_path parts).map ParsedLogo.name = some "" := by
  rcases Option.isSome_iff_exists.mp (List.getLast?_isSome.mpr h) with ⟨f, hf⟩
  have hex' : ¬ EXCLUDE_FOLDERS.any (fun e => decide (e ∈ parts)) = true := by
    simp [hex]
  have hfd : parts.getLastD "" = f := by
    rw [List.getLastD_eq_getLast?, hf]
    rfl
  have hname : (parse_logo_path parts).map ParsedLogo.name =
      some (clean_name (pathStem f)) := by
    unfold parse_logo_path
    rw [if_neg hex', hf]
    rfl
  rw [hname, clean_name_digits _ (hfd ▸ hstem)]

/-- C10 witness: `Azure/123-456.png` parses to a record with empty name. -/
theorem parse_numeric_stem_witness :
    (parse_logo_path ["Azure", "123-456.png"]).map ParsedLogo.name = some "" :=
  parse_numeric_stem ["Azure", "123-456.png"] (by decide) (by decide) (by decide)

/-- The ids assigned by the scan loop starting at counter `n` are exactly
the consecutive integers from `n`. -/
lemma scanLoop_ids (files : List (List String)) :
    ∀ n, (scanLoop files n).map (fun r => r.id) = List.range' n (scanLoop files n).length := by
  induction files with
  | nil => intro n; rfl
  | cons parts rest ih =>
    intro n
    unfold scanLoop
    by_cases hext : lowerStr (pathSuffix (parts.getLastD "")) ∈ LOGO_EXTENSIONS
    · rw [if_pos hext]
      cases hp : parse_logo_path parts with
      | none => exact ih n
      | some info =>
        simp only [List.map_cons, List.length_cons, List.range'_succ, ih (n + 1)]
    · rw [if_neg hext]
      exact ih n

/-- C9: the ids over the scanned records are exactly `0 .. n-1` in
traversal order (unique and dense), and after the serializer's re-sorting
they are still a permutation of `0 .. n-1` and in particular duplicate-free. -/
theorem scan_ids_dense (files : List (List String)) :
    (scan_logos files).map (fun r => r.id) = List.range (scan_logos files).length ∧
    ((logos_sorted (scan_logos files)).map (fun r => r.id)).Perm
      (List.range (scan_logos files).length) ∧
    ((logos_sorted (scan_logos files)).map (fun r => r.id)).Nodup := by
  have h₀ : (scan_logos files).map (fun r => r.id) = List.range (scan_logos files).length := by
    rw [List.range_eq_range']
    exact scanLoop_ids files 0
  have hperm : ((logos_sorted (scan_logos files)).map (fun r => r.id)).Perm
      ((scan_logos files).map (fun r => r.id)) :=
    (List.perm_insertionSort keyLE (scan_logos files)).map _
  refine ⟨h₀, ?_, ?_⟩
  · rw [← h₀]
    exact hperm
  · have hnd : ((scan_logos files).map (fun r => r.id)).Nodup := by
      rw [h₀]
      exact List.nodup_range _
    exact hperm.nodup_iff.mpr hnd

/-- Equal sort keys force equal `path` components (the key's last slot). -/
lemma keyP_path_inj {p q : ParsedLogo} (h : keyP p = keyP q) : p.path = q.path := by
  have h1 := congrArg ofLex h
  have h2 := congrArg Prod.snd h1
  have h3 := congrArg ofLex h2
  exact congrArg Prod.snd h3

/-- C5: the serializer's logo list is sorted ascending by the
`(family, name, path)` key, and — under the scanner's invariant that paths
are pairwise distinct — any two inputs holding the same records (ids aside,
in any order) sort to the identical sequence of records. -/
theorem logos_sorted_spec (l₁ l₂ : List LogoRecord) :
    (logos_sorted l₁).Sorted keyLE ∧
    (l₁.Pairwise (fun a b => a.path ≠ b.path) →
      (l₁.map LogoRecord.toParsedLogo).Perm (l₂.map LogoRecord.toParsedLogo) →
      (logos_sorted l₁).map LogoRecord.toParsedLogo =
        (logos_sorted l₂).map LogoRecord.toParsedLogo) := by
  constructor
  · exact List.sorted_insertionSort keyLE l₁
  · intro hd hperm
    have hp₁ : ((logos_sorted l₁).map LogoRecord.toParsedLogo).Perm
        (l₁.map LogoRecord.toParsedLogo) :=
      (List.perm_insertionSort keyLE l₁).map _
    have hp₂ : ((logos_sorted l₂).map LogoRecord.toParsedLogo).Perm
        (l₂.map LogoRecord.toParsedLogo) :=
      (List.perm_insertionSort keyLE l₂).map _
    have hP : ((logos_sorted l₁).map LogoRecord.toParsedLogo).Perm
        ((logos_sorted l₂).map LogoRecord.toParsedLogo) :=
      hp₁.trans (hperm.trans hp₂.symm)
    have hs₁ : ((logos_sorted l₁).map LogoRecord.toParsedLogo).Pairwise keyPLE :=
      List.Pairwise.map _ (fun _ _ hab => hab) (List.sorted_insertionSort keyLE l₁)
    have hs₂ : ((logos_sorted l₂).map LogoRecord.toParsedLogo).Pairwise keyPLE :=
      List.Pairwise.map _ (fun _ _ hab => hab) (List.sorted_insertionSort keyLE l₂)
    have hsym : ∀ {x y : ParsedLogo}, keyP x ≠ keyP y → keyP y ≠ keyP x :=
      fun hxy hc => hxy hc.symm
    have hne₁ : (l₁.map LogoRecord.toParsedLogo).Pairwise (fun a b => keyP a ≠ keyP b) :=
      List.Pairwise.map _ (fun _ _ hab hkey => hab (keyP_path_inj hkey)) hd
    have hneS₁ : ((logos_sorted l₁).map LogoRecord.toParsedLogo).Pairwise
        (fun a b => keyP a ≠ keyP b) :=
      (hp₁.pairwise_iff hsym).mpr hne₁
    have hneS₂ : ((logos_sorted l₂).map LogoRecord.toParsedLogo).Pairwise
        (fun a b => keyP a ≠ keyP b) :=
      (hP.pairwise_iff hsym).mp hneS₁
    have hlt₁ : ((logos_sorted l₁).map LogoRecord.toParsedLogo).Pairwise keyPLT :=
      (hs₁.and hneS₁).imp (fun hab => lt_of_le_of_ne hab.1 hab.2)
    have hlt₂ : ((logos_sorted l₂).map LogoRecord.toParsedLogo).Pairwise keyPLT :=
      (hs₂.and hneS₂).imp (fun hab => lt_of_le_of_ne hab.1 hab.2)
    exact List.eq_of_perm_of_sorted hP hlt₁ hlt₂

/-- C5 witness: two permuted two-record inputs (with different ids) sort to
the identical record sequence. -/
theorem logos_sorted_spec_witness :
    (logos_sorted
        [{ name := "A", family := "F", filename := "a.png", path := "F/a.png",
           style := "full-color", year := "current", size := "", format := "PNG", id := 0 },
         { name := "B", family := "F", filename := "b.png", path := "F/b.png",
           style := "full-color", year := "current", size := "", format := "PNG", id := 1 }]).map
      LogoRecord.toParsedLogo =
    (logos_sorted
        [{ name := "B", family := "F", filename := "b.png", path := "F/b.png",
           style := "full-color", year := "current", size := "", format := "PNG", id := 5 },
         { name := "A", family := "F", filename := "a.png", path := "F/a.png",
           style := "full-color", year := "current", size := "", format := "PNG", id := 7 }]).map
      LogoRecord.toParsedLogo :=
  (logos_sorted_spec
      [{ name := "A", family := "F", filename := "a.png", path := "F/a.png",
         style := "full-color", year := "current", size := "", format := "PNG", id := 0 },
       { name := "B", family := "F", filename := "b.png", path := "F/b.png",
         style := "full-color", year := "current", size := "", format := "PNG", id := 1 }]
      [{ name := "B", family := "F", filename := "b.png", path := "F/b.png",
         style := "full-color", year := "current", size := "", format := "PNG", id := 5 },
       { name := "A", family := "F", filename := "a.png", path := "F/a.png",
         style := "full-color", year := "current", size := "", format := "PNG", id := 7 }]).2
    (by decide) (by decide)

/-- Every entry kept by the collection loop passed the working-tree
existence check. -/
lemma ex_of_mem_collectAdded {e : RecentEntry} :
    ∀ (lines : List String) (cur : Option CommitInfo) (ex : String → Bool),
      e ∈ collectAdded lines cur ex → ex e.path = true := by
  intro lines
  induction lines with
  | nil =>
    intro cur ex h
    exact absurd h (by simp [collectAdded])
  | cons line rest ih =>
    intro cur ex h
    simp only [collectAdded] at h
    split at h
    · split at h
      · exact ih _ _ h
      · exact ih _ _ h
    · split at h
      · split at h
        · split at h
          · rcases List.mem_cons.mp h with rfl | h'
            · rename_i hcond
              exact hcond.2.2
            · exact ih _ _ h'
          · exact ih _ _ h
        · exact ih _ _ h
      · exact ih _ _ h

/-- C6: the recent-additions result has at most `limit` entries, every
entry's path exists in the current working-tree snapshot, and the entries
are in descending order of their commit-timestamp string (newest first). -/
theorem recent_additions_spec (lines : List String) (ex : String → Bool) (limit : Nat) :
    (get_recent_additions lines ex limit).length ≤ limit ∧
    (∀ e ∈ get_recent_additions lines ex limit, ex e.path = true) ∧
    (get_recent_additions lines ex limit).Sorted dateGE := by
  refine ⟨?_, ?_, ?_⟩
  · unfold get_recent_additions
    rw [List.length_take]
    exact min_le_left _ _
  · intro e he
    unfold get_recent_additions at he
    have h₁ : e ∈ List.insertionSort dateGE (collectAdded lines none ex) :=
      List.mem_of_mem_take he
    have h₂ : e ∈ collectAdded lines none ex := (List.mem_insertionSort dateGE).mp h₁
    exact ex_of_mem_collectAdded lines none ex h₂
  · unfold get_recent_additions
    exact List.Pairwise.sublist (List.take_sublist _ _) (List.sorted_insertionSort dateGE _)

/-- C7: when the git subprocess raises or exits non-zero, the
recent-additions step returns the empty list with a warning, and the
generation still produces the full artifact, merely with an empty
recent-additions block. -/
theorem history_failure_graceful (git : GitRun) (ex : String → Bool) (limit : Nat)
    (files : List (List String)) (contribs : List Contributor)
    (h : git = GitRun.failed ∨ ∃ rc out, git = GitRun.completed rc out ∧ rc ≠ 0) :
    get_recent_additions_run git ex limit = ([], true) ∧
    run_generation files git ex contribs =
      { logos := logos_sorted (scan_logos files), recent := [], contributors := contribs } := by
  have key : ∀ lim, get_recent_additions_run git ex lim = ([], true) := by
    intro lim
    rcases h with rfl | ⟨rc, out, rfl, hrc⟩
    · rfl
    · unfold get_recent_additions_run
      dsimp only
      rw [if_pos hrc]
  refine ⟨key limit, ?_⟩
  unfold run_generation
  rw [key 50]

/-- C7 witness: a non-zero git exit status yields the empty recent list and
a complete artifact. -/
theorem history_failure_graceful_witness :
    get_recent_additions_run (GitRun.completed 1 "") (fun _ => false) 50 = ([], true) ∧
    run_generation [] (GitRun.completed 1 "") (fun _ => false) [] =
      { logos := logos_sorted (scan_logos []), recent := [], contributors := [] } :=
  history_failure_graceful (GitRun.completed 1 "") (fun _ => false) 50 [] []
    (Or.inr ⟨1, "", rfl, by decide⟩)

end LogoGen
